import Mathlib

/-!
# Quickwords `SnippetsManager`: a shallow embedding

Source: `src/main/modules/SnippetsManager.js`.

JavaScript strings are sequences of UTF-16 code units.  A string is modelled as a
`List Char`, one `Char` standing for one code unit, so that `String.length` is
`List.length` and `substring` is `List.take` / `List.drop`.

The built-in `RegExp` is modelled by a backtracking matcher that follows the
ECMAScript pattern semantics (greedy quantifiers, ordered alternation, capture
groups, leftmost start position) for the fragment of the pattern syntax described
at `parseRegExp`; a pattern source outside the fragment is compiled by the host engine,
a collaborator of the model (`newRegExp`).
-/

namespace Quickwords

/-- A JavaScript string, one `Char` per UTF-16 code unit. -/
abbrev JsString := List Char

/-! ## Regular expressions (the built-in `RegExp`) -/

/-- The character class escapes `\d`, `\w` and `\s`. -/
inductive CharClass where
  | digit
  | word
  | space
  deriving DecidableEq, Repr

/-- Abstract syntax of a pattern. `group n r` is the capture group of index `n`. -/
inductive Re where
  | eps
  | chr (c : Char)
  | any
  | cls (k : CharClass) (negated : Bool)
  | bol
  | eol
  | seq (a b : Re)
  | alt (a b : Re)
  | star (a : Re)
  | plus (a : Re)
  | opt (a : Re)
  | group (n : Nat) (a : Re)
  deriving DecidableEq, Repr

/-- Line terminators, which `.` does not match: LF, CR, U+2028, U+2029. -/
def isLineTerminator (c : Char) : Bool :=
  c.toNat == 10 || c.toNat == 13 || c.toNat == 8232 || c.toNat == 8233

/-- Membership of a code unit in `\d`, `\w`, `\s`. -/
def CharClass.test : CharClass → Char → Bool
  | .digit, c => 48 ≤ c.toNat && c.toNat ≤ 57
  | .word, c =>
      (48 ≤ c.toNat && c.toNat ≤ 57) || (65 ≤ c.toNat && c.toNat ≤ 90)
        || (97 ≤ c.toNat && c.toNat ≤ 122) || c.toNat == 95
  | .space, c =>
      c.toNat == 9 || c.toNat == 10 || c.toNat == 11 || c.toNat == 12 || c.toNat == 13
        || c.toNat == 32 || c.toNat == 160 || c.toNat == 5760
        || (8192 ≤ c.toNat && c.toNat ≤ 8202) || c.toNat == 8232 || c.toNat == 8233
        || c.toNat == 8239 || c.toNat == 8287 || c.toNat == 12288 || c.toNat == 65279

/-- Captures recorded so far: group index and captured text. -/
abbrev Caps := List (Nat × JsString)

/-- The text captured by group `n`, if the group took part in the match. -/
def getCap (n : Nat) : Caps → Option JsString
  | [] => none
  | (i, s) :: rest => if i = n then some s else getCap n rest

/-- Record the text captured by group `n`. -/
def setCap (n : Nat) (s : JsString) (c : Caps) : Caps :=
  (n, s) :: c.filter (fun p => p.1 != n)

/-- Forget the captures of the listed groups (done at the start of every iteration
of a quantified term). -/
def resetCaps (gs : List Nat) (c : Caps) : Caps :=
  c.filter (fun p => !gs.contains p.1)

/-- Indices of the capture groups occurring in a pattern. -/
def groupsOf : Re → List Nat
  | .seq a b => groupsOf a ++ groupsOf b
  | .alt a b => groupsOf a ++ groupsOf b
  | .star a => groupsOf a
  | .plus a => groupsOf a
  | .opt a => groupsOf a
  | .group n a => n :: groupsOf a
  | _ => []

/-- A continuation: what remains to be matched after the current term. -/
abbrev Cont := JsString → Caps → Option Caps

/-- A matcher takes the remaining input, the captures and a continuation. -/
abbrev Matcher := JsString → Caps → Cont → Option Caps

/-- Greedy repetition (`RepeatMatcher` with `min = 0`, `max = ∞`): try one more
iteration of the body first, with the body's captures cleared; an iteration that
consumes nothing fails; fall back to the continuation. The counter is started at the
length of the remaining input and every iteration consumes at least one character, so
it reaches `0` only on empty input, where no further iteration could succeed. -/
def starLoop (body : Matcher) (inner : List Nat) : Nat → Matcher
  | 0, s, c, k => k s c
  | n + 1, s, c, k =>
      match body s (resetCaps inner c)
          (fun s' c' => if s'.length < s.length then starLoop body inner n s' c' k else none) with
      | some r => some r
      | none => k s c

/-- The backtracking matcher of a pattern; `total` is the length of the whole input
(used by `^`). -/
def matchRe (total : Nat) : Re → Matcher
  | .eps, s, c, k => k s c
  | .chr a, s, c, k =>
      match s with
      | [] => none
      | x :: xs => if x = a then k xs c else none
  | .any, s, c, k =>
      match s with
      | [] => none
      | x :: xs => if isLineTerminator x then none else k xs c
  | .cls cl neg, s, c, k =>
      match s with
      | [] => none
      | x :: xs => if cl.test x != neg then k xs c else none
  | .bol, s, c, k => if s.length = total then k s c else none
  | .eol, s, c, k =>
      match s with
      | [] => k [] c
      | _ :: _ => none
  | .seq a b, s, c, k => matchRe total a s c (fun s' c' => matchRe total b s' c' k)
  | .alt a b, s, c, k =>
      match matchRe total a s c k with
      | some r => some r
      | none => matchRe total b s c k
  | .star a, s, c, k => starLoop (matchRe total a) (groupsOf a) s.length s c k
  | .plus a, s, c, k =>
      matchRe total a s (resetCaps (groupsOf a) c)
        (fun s' c' => starLoop (matchRe total a) (groupsOf a) s'.length s' c' k)
  | .opt a, s, c, k =>
      match matchRe total a s (resetCaps (groupsOf a) c)
          (fun s' c' => if s'.length < s.length then k s' c' else none) with
      | some r => some r
      | none => k s c
  | .group n a, s, c, k =>
      matchRe total a s c (fun s' c' => k s' (setCap n (s.take (s.length - s'.length)) c'))

/-- The final continuation: the whole pattern has matched. -/
def accept : Cont := fun _ c => some c

/-- Try the start positions from left to right, as `RegExp.prototype.exec` does for
a pattern without the global or sticky flag. -/
def execAt (total : Nat) (re : Re) : JsString → Option Caps
  | [] => matchRe total re [] [] accept
  | x :: xs =>
      match matchRe total re (x :: xs) [] accept with
      | some r => some r
      | none => execAt total re xs

/-- The captures of `re.exec(input)`, or `none` when `exec` returns `null`. -/
def Re.exec (re : Re) (input : JsString) : Option Caps :=
  execAt input.length re input

/-! ## Pattern syntax (`new RegExp(source)`) -/

/-- Why the parser of the modelled fragment yields no `Re`: `syntaxError` is the
`SyntaxError` thrown by `new RegExp`, with the detail of its message; `outsideFragment`
marks a source that uses a construct the fragment does not cover (character sets,
braces, lazy quantifiers, `(?`-groups, `\b`, back-references and numeric or hexadecimal
escapes), which `newRegExp` hands to the host engine. -/
inductive RegExpError where
  | syntaxError (detail : JsString)
  | outsideFragment
  deriving DecidableEq, Repr

/-- The details of the engine's `SyntaxError` messages. -/
def nothingToRepeat : JsString := "Nothing to repeat".toList
def unmatchedParen : JsString := "Unmatched ')'".toList
def unterminatedGroup : JsString := "Unterminated group".toList
def trailingBackslash : JsString := "\\ at end of pattern".toList

/-- What the parser has just read, which decides whether a quantifier may follow. -/
inductive Last where
  | start
  | opened
  | atom
  | quantifier
  | assertion
  | bar
  deriving DecidableEq, Repr

/-- An open disjunction: the group index it belongs to, the finished alternatives and
the terms of the current alternative, both most recent first. -/
structure Frame where
  idx : Nat
  alts : List Re
  terms : List Re
  deriving DecidableEq, Repr

/-- Parser state: enclosing frames, current frame, next free group index, whether the
previous character was an unescaped backslash, and the last token kind. -/
structure PState where
  stack : List Frame
  cur : Frame
  nextIdx : Nat
  escaped : Bool
  last : Last
  deriving DecidableEq, Repr

/-- The sequence of the terms of one alternative. -/
def seqOf (terms : List Re) : Re :=
  terms.foldl (fun acc t => Re.seq t acc) Re.eps

/-- The disjunction held by a frame. -/
def Frame.toRe (f : Frame) : Re :=
  f.alts.foldl (fun acc a => Re.alt a acc) (seqOf f.terms)

/-- Add an atom to the current alternative. -/
def PState.pushAtom (st : PState) (r : Re) : PState :=
  { st with cur := { st.cur with terms := r :: st.cur.terms }, escaped := false, last := .atom }

/-- Add an assertion (`^` or `$`) to the current alternative. -/
def PState.pushAssertion (st : PState) (r : Re) : PState :=
  { st with cur := { st.cur with terms := r :: st.cur.terms }, escaped := false,
            last := .assertion }

/-- Apply a quantifier to the last atom. -/
def PState.quantify (st : PState) (q : Re → Re) (isOpt : Bool) : Except RegExpError PState :=
  match st.last, st.cur.terms with
  | .atom, t :: ts =>
      .ok { st with cur := { st.cur with terms := q t :: ts }, last := .quantifier }
  | .quantifier, _ =>
      if isOpt then .error .outsideFragment else .error (.syntaxError nothingToRepeat)
  | .opened, _ =>
      if isOpt then .error .outsideFragment else .error (.syntaxError nothingToRepeat)
  | _, _ => .error (.syntaxError nothingToRepeat)

/-- The character after a backslash. -/
def PState.escape (st : PState) (c : Char) : Except RegExpError PState :=
  if c = 'd' then .ok (st.pushAtom (.cls .digit false))
  else if c = 'D' then .ok (st.pushAtom (.cls .digit true))
  else if c = 'w' then .ok (st.pushAtom (.cls .word false))
  else if c = 'W' then .ok (st.pushAtom (.cls .word true))
  else if c = 's' then .ok (st.pushAtom (.cls .space false))
  else if c = 'S' then .ok (st.pushAtom (.cls .space true))
  else if c = 't' then .ok (st.pushAtom (.chr (Char.ofNat 9)))
  else if c = 'n' then .ok (st.pushAtom (.chr (Char.ofNat 10)))
  else if c = 'v' then .ok (st.pushAtom (.chr (Char.ofNat 11)))
  else if c = 'f' then .ok (st.pushAtom (.chr (Char.ofNat 12)))
  else if c = 'r' then .ok (st.pushAtom (.chr (Char.ofNat 13)))
  else if c.isDigit || c = 'b' || c = 'B' || c = 'c' || c = 'x' || c = 'u' || c = 'k' then
    .error .outsideFragment
  else .ok (st.pushAtom (.chr c))

/-- Read one character of the pattern source. -/
def PState.step (st : PState) (c : Char) : Except RegExpError PState :=
  if st.escaped then st.escape c
  else if c = '\\' then .ok { st with escaped := true }
  else if c = '(' then
    .ok { st with stack := st.cur :: st.stack, cur := ⟨st.nextIdx, [], []⟩,
                  nextIdx := st.nextIdx + 1, last := .opened }
  else if c = ')' then
    match st.stack with
    | [] => .error (.syntaxError unmatchedParen)
    | parent :: rest =>
        .ok { st with stack := rest,
                      cur := { parent with terms := .group st.cur.idx st.cur.toRe :: parent.terms },
                      last := .atom }
  else if c = '|' then
    .ok { st with cur := { st.cur with alts := seqOf st.cur.terms :: st.cur.alts, terms := [] },
                  last := .bar }
  else if c = '*' then st.quantify .star false
  else if c = '+' then st.quantify .plus false
  else if c = '?' then st.quantify .opt true
  else if c = '.' then .ok (st.pushAtom .any)
  else if c = '^' then .ok (st.pushAssertion .bol)
  else if c = '$' then .ok (st.pushAssertion .eol)
  else if c = '[' || c = '{' then .error .outsideFragment
  else .ok (st.pushAtom (.chr c))

/-- Read the pattern source from left to right. -/
def PState.run : PState → JsString → Except RegExpError PState
  | st, [] => .ok st
  | st, c :: cs =>
      match st.step c with
      | .ok st' => st'.run cs
      | .error e => .error e

/-- The state before any character is read; group indices start at 1. -/
def PState.init : PState := ⟨[], ⟨0, [], []⟩, 1, false, .start⟩

/-- The parser of the modelled fragment: the parsed pattern, or the reason there is none
(a trailing backslash and an unterminated group are syntax errors). -/
def parseRegExp (source : JsString) : Except RegExpError Re :=
  match PState.init.run source with
  | .error e => .error e
  | .ok st =>
      if st.escaped then .error (.syntaxError trailingBackslash)
      else match st.stack with
        | [] => .ok st.cur.toRe
        | _ :: _ => .error (.syntaxError unterminatedGroup)

/-- Lodash `_.escapeRegExp`: put a backslash before each of
the characters `\ ^ $ . * + ? ( ) [ ] { } |`. -/
def regExpSpecial (c : Char) : Bool :=
  c = '\\' || c = '^' || c = '$' || c = '.' || c = '*' || c = '+' || c = '?'
    || c = '(' || c = ')' || c = '[' || c = ']' || c = '{' || c = '}' || c = '|'

/-- Lodash `_.escapeRegExp` on a string. -/
def escapeRegExp : JsString → JsString
  | [] => []
  | c :: cs => if regExpSpecial c then '\\' :: c :: escapeRegExp cs else c :: escapeRegExp cs

/-! ## Literal patterns -/

/-- The pattern that matches exactly the characters of `k`, in order. -/
def lits (k : JsString) : Re :=
  k.foldr (fun c acc => Re.seq (Re.chr c) acc) Re.eps

/-- Push the characters of `k` as literal atoms. -/
def PState.pushLits (st : PState) (k : JsString) : PState :=
  k.foldl (fun s c => s.pushAtom (Re.chr c)) st

/-- The pattern the matcher builds for a literal trigger `k`. -/
def literalPattern (k : JsString) : Re :=
  .seq (.star .any) (.seq (.group 1 (lits k)) (.seq .eol .eps))

/-- The part of the literal pattern after the leading `.*`. -/
def literalTail (k : JsString) : Re :=
  .seq (.group 1 (lits k)) (.seq .eol .eps)

/-! ## Data model -/

/-- A key event of the keyboard hook. -/
structure KeyEvent where
  keycode : Nat
  shiftKey : Bool
  altKey : Bool
  ctrlKey : Bool
  metaKey : Bool
  deriving DecidableEq, Repr

/-- One entry of the layout table returned by `NativeKeymap.getKeyMap()`; an absent
field is `none`. -/
structure LayoutEntry where
  value : Option JsString
  withShift : Option JsString
  withAltGr : Option JsString
  withShiftAltGr : Option JsString
  deriving DecidableEq, Repr

/-- A snippet of the registry (`store.get('snippets')`). -/
structure Snippet where
  key : JsString
  regex : Bool
  type : JsString
  value : JsString
  deriving DecidableEq, Repr

/-- A thrown or rejected value: a string, or an `Error` object with a name and a
message. -/
inductive Thrown where
  | str (s : JsString)
  | error (name message : JsString)
  deriving DecidableEq, Repr

/-- JavaScript `String(error)`: a string is itself; an `Error` prints as
`name: message`, or as the non-empty one of the two. -/
def Thrown.toStr : Thrown → JsString
  | .str s => s
  | .error name message =>
      if name = [] then message
      else if message = [] then name
      else name ++ ": ".toList ++ message

/-- The values that reach `replace` and the clipboard. -/
inductive JsValue where
  | str (s : JsString)
  | num (n : Int)
  | undefined
  deriving DecidableEq, Repr

/-- What a run of an embedded (Lua) script does: the error thrown by `DoString`, the
error thrown by the call of `qw`, and the text accumulated through `qprint`. -/
structure LuaRun where
  doString : Option Thrown
  call : Option Thrown
  output : JsString

/-- What the value returned by a user function looks like to `_evaluateJavascript`. -/
inductive JsReturn where
  | str (s : JsString)
  | num (n : Int)
  | thenable (settles : Option (Except Thrown JsValue))
  | other

/-- What `eval` of a general-script source yields. -/
inductive JsEvaluated where
  | throws (e : Thrown)
  | notFunction
  | function (call : JsString → Except Thrown JsReturn)

/-- The collaborators of the manager, which the source receives or imports:
the `./chars` table, the live layout table, the store, the notification sink, the
two script engines, and the host's `RegExp` for pattern sources outside the modelled
fragment (the detail of its `SyntaxError`, or its `exec`, which gives for each group
that took part the start and end index of its capture in the input). Key names are
assumed free of `.` and `[`, so that the lodash path built from a key name has exactly
two segments. -/
structure Env where
  chars : Nat → Option JsString
  keymap : JsString → Option LayoutEntry
  snippets : List Snippet
  bufferLength : Nat
  notificationSupported : Bool
  lua : JsString → JsString → LuaRun
  jsEval : JsString → JsEvaluated
  hostRegExp : JsString → Except JsString (JsString → Option (List (Nat × Nat × Nat)))

/-- The fields of the manager that the key handler changes. -/
structure Manager where
  buffer : JsString
  shouldMatch : Bool
  deriving DecidableEq, Repr

/-- A pending timer callback. -/
inductive TimerTask where
  | paste
  | restore (text : JsString)
  deriving DecidableEq, Repr

/-- The world outside the manager: clipboard text, the key taps sent through the
keystroke injector (oldest first), the notifications shown, the pending timers with
their delays (in scheduling order) and the texts the focused application received
from paste chords. -/
structure Sys where
  clipboard : JsString
  taps : List (JsString × Option JsString)
  notifications : List (JsString × JsString)
  timers : List (Nat × TimerTask)
  pasted : List JsString
  deriving DecidableEq, Repr

namespace SnippetsManager

def KEY_BACKSPACE : JsString := "Backspace".toList
def KEY_ARROWS : List JsString :=
  ["ArrowUp".toList, "ArrowDown".toList, "ArrowLeft".toList, "ArrowRight".toList]
def KEY_TAB : JsString := "Tab".toList

/-- `_getCharNameFromKeycode`: `_.get(chars, keycode, null)`. -/
def _getCharNameFromKeycode (env : Env) (keycode : Nat) : Option JsString :=
  env.chars keycode

/-- `_isBackspace`. -/
def _isBackspace (env : Env) (keycode : Nat) : Bool :=
  _getCharNameFromKeycode env keycode == some KEY_BACKSPACE

/-- JavaScript truthiness of a value that is a string or `false`: `!value` holds for
`false` and for the empty string. -/
def truthy : Option JsString → Option JsString
  | some [] => none
  | v => v

/-- `_eventToUnicode`; `none` is the source's `false`. -/
def _eventToUnicode (env : Env) (e : KeyEvent) : Option JsString :=
  match truthy (_getCharNameFromKeycode env e.keycode) with
  | none => none
  | some name =>
      match env.keymap name with
      | none => none
      | some entry =>
          let value :=
            if e.shiftKey && e.altKey && !e.ctrlKey && !e.metaKey then entry.withShiftAltGr
            else if e.shiftKey && !e.ctrlKey && !e.metaKey then entry.withShift
            else if e.altKey && !e.ctrlKey && !e.metaKey then entry.withAltGr
            else if !e.ctrlKey && !e.metaKey then entry.value
            else none
          truthy value

/-- `_resetBuffer`. -/
def _resetBuffer (m : Manager) : Manager := { m with buffer := [] }

/-- `_onMouseClick`. -/
def _onMouseClick (m : Manager) : Manager := _resetBuffer m

/-- `_shouldResetBuffer`. -/
def _shouldResetBuffer (env : Env) (e : KeyEvent) : Bool :=
  let pressed := _getCharNameFromKeycode env e.keycode
  (pressed == some KEY_BACKSPACE && e.altKey == true)
    || (pressed == some KEY_TAB)
    || (match pressed with
        | some name => KEY_ARROWS.contains name
        | none => false)

/-- `_addCharToBuffer`. -/
def _addCharToBuffer (character : JsString) (m : Manager) : Manager :=
  { m with buffer := m.buffer ++ character }

/-- `_shortenBufferBy`: `substring(0, length - amount)`. -/
def _shortenBufferBy (amount : Nat) (m : Manager) : Manager :=
  { m with buffer := m.buffer.take (m.buffer.length - amount) }

/-- `_shortenBufferIfNecessary`: `substring(1)` when the buffer is too long. -/
def _shortenBufferIfNecessary (env : Env) (m : Manager) : Manager :=
  if m.buffer.length > env.bufferLength then { m with buffer := m.buffer.drop 1 } else m

end SnippetsManager

/-! ## Script evaluation -/

/-- The state of a promise inside its executor: `none` while pending. -/
abbrev Settled (α : Type) := Option (Except Thrown α)

/-- The function `resolve`: only the first settlement counts. -/
def resolve {α : Type} (p : Settled α) (v : α) : Settled α :=
  match p with
  | none => some (.ok v)
  | some r => some r

/-- The function `reject`: only the first settlement counts. -/
def reject {α : Type} (p : Settled α) (e : Thrown) : Settled α :=
  match p with
  | none => some (.error e)
  | some r => some r

/-- The rejection of the 5000 ms timer. -/
def timeoutMessage : Thrown :=
  .str "Function timed out after 5 seconds of inactivity".toList

/-- What `await` sees: a promise still pending when the executor returns is rejected
by the timer. -/
def awaitSettled {α : Type} (p : Settled α) : Except Thrown α :=
  match p with
  | some r => r
  | none => .error timeoutMessage

/-- The text of the `TypeError` of calling a value that is not a function. -/
def notCallable : Thrown := .error "TypeError".toList "executable is not a function".toList

namespace SnippetsManager

/-- `_evaluateLua`: the executor goes on after a rejection, and always ends with
`r(e)`, which clears the timer. -/
def _evaluateLua (env : Env) (matchedString code : JsString) : Except Thrown JsString :=
  let run := env.lua code matchedString
  let p0 : Settled JsString := none
  let p1 := match run.doString with
    | some err => reject p0 (.str err.toStr)
    | none => p0
  let p2 := match run.call with
    | some err => reject p1 err
    | none => p1
  awaitSettled (resolve p2 run.output)

/-- `_evaluateJavascript`. -/
def _evaluateJavascript (env : Env) (matchedString code : JsString) : Except Thrown JsValue :=
  let p0 : Settled JsValue := none
  let evaluated := env.jsEval code
  let p1 := match evaluated with
    | .throws err => reject p0 (.str err.toStr)
    | _ => p0
  let p2 := match evaluated with
    | .function _ => p1
    | _ => reject p1 (.str "Used snippet code is not a function".toList)
  let called : Except Thrown JsReturn := match evaluated with
    | .function call => call matchedString
    | _ => .error notCallable
  let p3 := match called with
    | .error err => reject p2 err
    | .ok _ => p2
  let p4 := match called with
    | .ok (.thenable (some (.ok v))) => resolve p3 v
    | .ok (.thenable (some (.error err))) => reject p3 err
    | .ok (.thenable none) => p3
    | .ok (.str s) => resolve p3 (.str s)
    | .ok (.num n) => resolve p3 (.num n)
    | _ => reject p3 (.str
        "User-defined function returned invalid type. Expected a Promise, string or number.".toList)
  awaitSettled p4

/-- The call `this._evaluate(matchedString, code)`: the class defines `_evaluateLua` and
`_evaluateJavascript` but no method `_evaluate`, so the call throws a `TypeError`. -/
def _evaluate (_matchedString _code : JsString) : Except Thrown JsValue :=
  .error (.error "TypeError".toList "this._evaluate is not a function".toList)

/-- The expression `_.get('error', 'message', String(error))`: the object is the string
literal `'error'`, which has no property `message`, so the default is returned. -/
def errorText (error : Thrown) : JsString := error.toStr

/-- `Notification.show(title, body)`. -/
def notificationShow (title body : JsString) (sys : Sys) : Sys :=
  { sys with notifications := sys.notifications ++ [(title, body)] }

/-- `_handleJavascriptSnippet`: the value it resolves to and the world after it. -/
def _handleJavascriptSnippet (env : Env) (matchedString code : JsString) (sys : Sys) :
    JsValue × Sys :=
  match _evaluate matchedString code with
  | .ok v => (v, sys)
  | .error error =>
      if !env.notificationSupported then
        (.str ("QWError ".toList ++ errorText error), sys)
      else
        (.str [], notificationShow "QWError".toList (errorText error) sys)

/-- `_handlePlainTextSnippet`. -/
def _handlePlainTextSnippet (value : JsString) : JsString := value

/-- `setTimeout(callback, delay)`. -/
def setTimeout (delay : Nat) (task : TimerTask) (sys : Sys) : Sys :=
  { sys with timers := sys.timers ++ [(delay, task)] }

/-- `keyboardSimulator.keyTap(key, modifier)`. -/
def keyTap (key : JsString) (modifier : Option JsString) (sys : Sys) : Sys :=
  { sys with taps := sys.taps ++ [(key, modifier)] }

/-- The `TypeError` of a clipboard call whose argument is not a string. -/
def clipboardTypeError : Thrown :=
  .error "TypeError".toList "Error processing argument at index 0, conversion failure".toList

/-- `clipboard.writeText(value)`: the interface is `writeText(string)`; a string is
stored, and for any other value the call throws a `TypeError` without storing. -/
def writeText (value : JsValue) (sys : Sys) : Except Thrown Sys :=
  match value with
  | .str s => .ok { sys with clipboard := s }
  | _ => .error clipboardTypeError

/-- `replace`. -/
def replace (value : JsValue) (sys : Sys) : Except Thrown Sys :=
  let clipboardContent := sys.clipboard
  match writeText value sys with
  | .error e => .error e
  | .ok sys1 =>
      .ok (setTimeout 500 (.restore clipboardContent) (setTimeout 50 .paste sys1))

/-- `_handleLuaSnippet`: it writes the clipboard and schedules the paste and the
restore itself, and resolves to `undefined`. -/
def _handleLuaSnippet (env : Env) (matchedString code : JsString) (sys : Sys) :
    JsValue × Sys :=
  let clipboardContent := sys.clipboard
  let sys1 : Sys :=
    match _evaluateLua env matchedString code with
    | .ok data => { sys with clipboard := data }
    | .error error => { sys with clipboard := "QWError: ".toList ++ errorText error }
  (.undefined, setTimeout 500 (.restore clipboardContent) (setTimeout 50 .paste sys1))

end SnippetsManager

/-! ## Matching and expansion -/

/-- How the asynchronous `_replaceSnippetIfMatchFound` ends without finishing: an
exception rejects its promise; the world reached so far is kept. -/
inductive Abort where
  | threw (e : Thrown) (sys : Sys)
  deriving DecidableEq, Repr

/-- The `SyntaxError` of `new RegExp(source)`:
`Invalid regular expression: /source/: detail`. -/
def regExpSyntaxError (source detail : JsString) : Thrown :=
  .error "SyntaxError".toList
    ("Invalid regular expression: /".toList ++ source ++ "/: ".toList ++ detail)

/-- The captures of a match of the host engine: the substrings of the input between the
start and end indices of the groups. -/
def sliceCaps (input : JsString) (spans : List (Nat × Nat × Nat)) : Caps :=
  spans.map (fun sp => (sp.1, (input.drop sp.2.1).take (sp.2.2 - sp.2.1)))

/-- `new RegExp(source)` without flags, as the function `exec` of the compiled pattern,
or the `SyntaxError` thrown. A source of the modelled fragment is parsed and matched by
`matchRe`; any other source is compiled by the host engine. -/
def newRegExp (env : Env) (source : JsString) : Except Thrown (JsString → Option Caps) :=
  match parseRegExp source with
  | .ok re => .ok re.exec
  | .error (.syntaxError detail) => .error (regExpSyntaxError source detail)
  | .error .outsideFragment =>
      match env.hostRegExp source with
      | .ok exec => .ok (fun input => (exec input).map (sliceCaps input))
      | .error detail => .error (regExpSyntaxError source detail)

namespace SnippetsManager

/-- The body of the loop up to `matchedString`: escape a literal key, build
`.*(key)$`, run `exec` on the buffer and read group 1 (`_.get(match, 1, false)`;
`none` is `false`). -/
def matchedString (env : Env) (snippet : Snippet) (buffer : JsString) :
    Except Thrown (Option JsString) :=
  let key := if !snippet.regex then escapeRegExp snippet.key else snippet.key
  match newRegExp env (".*(".toList ++ key ++ ")$".toList) with
  | .error e => .error e
  | .ok exec => .ok ((exec buffer).bind (getCap 1))

/-- The loop `for (i < matchedString.length) keyTap('backspace')`. -/
def tapBackspaces : Nat → Sys → Sys
  | 0, sys => sys
  | n + 1, sys => tapBackspaces n (keyTap "backspace".toList none sys)

/-- The body of `if (matchedString)`: backspaces, dispatch on the snippet type,
`replace`. -/
def expand (env : Env) (snippet : Snippet) (matched : JsString) (sys : Sys) :
    Except Abort Sys :=
  let sys1 := tapBackspaces matched.length sys
  let r : JsValue × Sys :=
    if snippet.type = "js".toList then _handleJavascriptSnippet env matched snippet.value sys1
    else if snippet.type = "lua".toList then _handleLuaSnippet env matched snippet.value sys1
    else (.str (_handlePlainTextSnippet snippet.value), sys1)
  match replace r.1 r.2 with
  | .ok sys2 => .ok sys2
  | .error e => .error (.threw e r.2)

/-- The loop of `_replaceSnippetIfMatchFound` over the remaining snippets. -/
def scanSnippets (env : Env) (buffer : JsString) : List Snippet → Sys → Except Abort Sys
  | [], sys => .ok sys
  | snippet :: rest, sys =>
      match matchedString env snippet buffer with
      | .error e => .error (.threw e sys)
      | .ok ms =>
          match truthy ms with
          | some matched => expand env snippet matched sys
          | none => scanSnippets env buffer rest sys

/-- `_replaceSnippetIfMatchFound`: the manager after it (the function reads `this.buffer`
and assigns no field) and the outcome of its loop. -/
def _replaceSnippetIfMatchFound (env : Env) (m : Manager) (sys : Sys) :
    Manager × Except Abort Sys :=
  (m, scanSnippets env m.buffer env.snippets sys)

/-- `_onKeyDown`: the manager after the event, and the outcome of the asynchronous
matching it may have started (which the handler does not wait for). -/
def _onKeyDown (env : Env) (e : KeyEvent) (m : Manager) (sys : Sys) :
    Manager × Except Abort Sys :=
  if !m.shouldMatch then (m, .ok sys)
  else if _shouldResetBuffer env e then (_resetBuffer m, .ok sys)
  else if _isBackspace env e.keycode then (_shortenBufferBy 1 m, .ok sys)
  else
    match _eventToUnicode env e with
    | some character =>
        _replaceSnippetIfMatchFound env
          (_shortenBufferIfNecessary env (_addCharToBuffer character m)) sys
    | none => (m, .ok sys)

end SnippetsManager

/-! ## Timers -/

/-- Insert a timer into a list ordered by delay, after the entries that are due no
later (timers due at the same time fire in scheduling order). -/
def insertTimer (t : Nat × TimerTask) : List (Nat × TimerTask) → List (Nat × TimerTask)
  | [] => [t]
  | u :: us => if u.1 ≤ t.1 then u :: insertTimer t us else t :: u :: us

/-- The pending timers in firing order. -/
def firingOrder (ts : List (Nat × TimerTask)) : List (Nat × TimerTask) :=
  ts.foldl (fun acc t => insertTimer t acc) []

/-- Run one timer callback: the paste chord `keyTap('v', 'command')` makes the focused
application insert the clipboard text; the restore writes the saved text back. -/
def fire (sys : Sys) (t : Nat × TimerTask) : Sys :=
  match t.2 with
  | .paste =>
      { sys with taps := sys.taps ++ [("v".toList, some "command".toList)],
                 pasted := sys.pasted ++ [sys.clipboard] }
  | .restore text => { sys with clipboard := text }

/-- Let every pending timer fire, in firing order. -/
def runTimers (sys : Sys) : Sys :=
  (firingOrder sys.timers).foldl fire { sys with timers := [] }

/-- The world once an expansion cycle and all its timers are over, whether the cycle
finished or threw. -/
def settle : Except Abort Sys → Sys
  | .ok sys => runTimers sys
  | .error (.threw _ sys) => runTimers sys

/-- Handle a sequence of key events; the buffer does not depend on what the matching
started by earlier events did to the world. -/
def typeKeys (env : Env) : List KeyEvent → Manager → Sys → Manager
  | [], m, _ => m
  | e :: es, m, sys =>
      let r := SnippetsManager._onKeyDown env e m sys
      typeKeys env es r.1 (match r.2 with
        | .ok sys1 => sys1
        | .error (.threw _ sys1) => sys1)

/-! ## Concrete collaborators used to instantiate the theorems -/

/-- A key-name table with four keys: 1 is `KeyA`, 2 is `Tab`, 3 is `Backspace`, 4 is
`KeyW`. -/
def demoChars (keycode : Nat) : Option JsString :=
  if keycode = 1 then some "KeyA".toList
  else if keycode = 2 then some "Tab".toList
  else if keycode = 3 then some "Backspace".toList
  else if keycode = 4 then some "KeyW".toList
  else none

/-- A layout with the keys `KeyA` and `KeyW`. -/
def demoKeymap (name : JsString) : Option LayoutEntry :=
  if name = "KeyA".toList then some ⟨some "a".toList, some "A".toList, none, some []⟩
  else if name = "KeyW".toList then some ⟨some "w".toList, some "W".toList, none, none⟩
  else none

/-- A host engine that knows one source outside the fragment, `.*([0-9]+x)$`: the
greedy `.*` leaves the group one digit and the `x`, when the input ends so. -/
def demoHostRegExp (source : JsString) :
    Except JsString (JsString → Option (List (Nat × Nat × Nat))) :=
  if source = ".*([0-9]+x)$".toList then
    .ok (fun input =>
      match input.reverse with
      | x :: d :: _ =>
          if x = 'x' ∧ d.isDigit then some [(1, input.length - 2, input.length)] else none
      | _ => none)
  else .error "Unterminated character class".toList

/-- An environment over the demo tables: the registry, the buffer bound, whether
notifications are supported and the Lua engine are given. -/
def demoEnv (snippets : List Snippet) (bufferLength : Nat) (supported : Bool)
    (lua : JsString → JsString → LuaRun) : Env where
  chars := demoChars
  keymap := demoKeymap
  snippets := snippets
  bufferLength := bufferLength
  notificationSupported := supported
  lua := lua
  jsEval := fun _ => .function (fun _ => .ok (.num 7))
  hostRegExp := demoHostRegExp

/-- A Lua engine whose script prints `new`. -/
def luaPrintsNew (_code _matched : JsString) : LuaRun := ⟨none, none, "new".toList⟩

/-- A Lua engine whose script fails at run time with the string `boom`. -/
def luaFails (_code _matched : JsString) : LuaRun := ⟨none, some (.str "boom".toList), []⟩

/-- A world with the clipboard text `old` and nothing pending. -/
def demoSys : Sys := ⟨"old".toList, [], [], [], []⟩

/-- A key event without modifiers. -/
def plainKey (keycode : Nat) : KeyEvent := ⟨keycode, false, false, false, false⟩

/-! ## The layout decoder as the specification words it -/

/-- The specification's decoder: no key name or no layout entry gives no character;
otherwise the field is chosen by modifier priority, control and command chords giving
none; an absent or empty field gives no character. -/
def layoutDecoderSpec (env : Env) (e : KeyEvent) : Option JsString :=
  match env.chars e.keycode with
  | none => none
  | some [] => none
  | some (n :: ns) =>
      match env.keymap (n :: ns) with
      | none => none
      | some entry =>
          if e.ctrlKey || e.metaKey then none
          else
            let field :=
              if e.shiftKey && e.altKey then entry.withShiftAltGr
              else if e.shiftKey then entry.withShift
              else if e.altKey then entry.withAltGr
              else entry.value
            match field with
            | none => none
            | some [] => none
            | some (c :: cs) => some (c :: cs)

/-- The last `n` elements of a sequence (all of it when it is shorter). -/
def lastN (n : Nat) (xs : JsString) : JsString :=
  xs.drop (xs.length - n)

/-- A key event that types one plain character: it neither resets the buffer nor is a
backspace, and it decodes to a single code unit. -/
def PlainChar (env : Env) (e : KeyEvent) : Prop :=
  SnippetsManager._shouldResetBuffer env e = false
    ∧ SnippetsManager._isBackspace env e.keycode = false
    ∧ ∃ c, SnippetsManager._eventToUnicode env e = some [c]

/-- The characters a sequence of key events decodes to, in typing order. -/
def typed (env : Env) (es : List KeyEvent) : JsString :=
  es.flatMap (fun e => (SnippetsManager._eventToUnicode env e).getD [])

/-- Every recorded capture is the empty string. -/
def AllEmpty (c : Caps) : Prop := ∀ p ∈ c, p.2 = []

/-- The match test of a snippet succeeds: group 1 holds the non-empty text `matched`. -/
def Matches (env : Env) (snippet : Snippet) (buffer matched : JsString) : Prop :=
  SnippetsManager.matchedString env snippet buffer = .ok (some matched) ∧ matched ≠ []

/-- The match test of a snippet is run and fails: `exec` returns `null` (or leaves group 1
unset), or group 1 is the empty string. -/
def NoMatch (env : Env) (snippet : Snippet) (buffer : JsString) : Prop :=
  SnippetsManager.matchedString env snippet buffer = .ok none
    ∨ SnippetsManager.matchedString env snippet buffer = .ok (some [])

/-- The buffer after a character is accepted, in the specification's words: append it,
and if the length now exceeds the configured maximum, drop one character from the
front. -/
def appendTrim (bufferLength : Nat) (buffer character : JsString) : JsString :=
  if (buffer ++ character).length > bufferLength then (buffer ++ character).drop 1
  else buffer ++ character

/-- The world reached by the asynchronous matching, whether it finished or threw. -/
def worldOf : Except Abort Sys → Sys
  | .ok sys => sys
  | .error (.threw _ sys) => sys

/-- The key of the event is Tab, an arrow key, or Backspace with alt held. -/
def IsResetKey (env : Env) (e : KeyEvent) : Prop :=
  env.chars e.keycode = some "Tab".toList
    ∨ env.chars e.keycode = some "ArrowUp".toList
    ∨ env.chars e.keycode = some "ArrowDown".toList
    ∨ env.chars e.keycode = some "ArrowLeft".toList
    ∨ env.chars e.keycode = some "ArrowRight".toList
    ∨ (env.chars e.keycode = some "Backspace".toList ∧ e.altKey = true)

open SnippetsManager

/-! ## Parsing an escaped literal -/

theorem step_backslash (st : PState) (h : st.escaped = false) :
    st.step '\\' = .ok { st with escaped := true } := by
  simp [PState.step, h]

theorem escape_special (st : PState) (c : Char) (hc : regExpSpecial c = true) :
    st.escape c = .ok (st.pushAtom (Re.chr c)) := by
  simp only [regExpSpecial, Bool.or_eq_true, decide_eq_true_eq] at hc
  rcases hc with ((((((((((((h | h) | h) | h) | h) | h) | h) | h) | h) | h) | h) | h) | h) | h <;>
    subst h <;> rfl

theorem step_plain (st : PState) (c : Char) (h : st.escaped = false)
    (hc : regExpSpecial c = false) : st.step c = .ok (st.pushAtom (Re.chr c)) := by
  simp only [regExpSpecial, Bool.or_eq_false_iff, decide_eq_false_iff_not] at hc
  obtain ⟨⟨⟨⟨⟨⟨⟨⟨⟨⟨⟨⟨⟨h1, h2⟩, h3⟩, h4⟩, h5⟩, h6⟩, h7⟩, h8⟩, h9⟩, h10⟩, h11⟩, h12⟩, h13⟩, h14⟩ := hc
  simp [PState.step, h, h1, h2, h3, h4, h5, h6, h7, h8, h9, h10, h12, h14]

theorem pushAtom_escaped (st : PState) (r : Re) : (st.pushAtom r).escaped = false := rfl

theorem run_escapeRegExp (k rest : JsString) (st : PState) (h : st.escaped = false) :
    st.run (escapeRegExp k ++ rest) = (st.pushLits k).run rest := by
  induction k generalizing st with
  | nil => rfl
  | cons c cs ih =>
    by_cases hc : regExpSpecial c = true
    · have e1 : escapeRegExp (c :: cs) = '\\' :: c :: escapeRegExp cs := by
        simp [escapeRegExp, hc]
      have e2 : PState.step { st with escaped := true } c = .ok (st.pushAtom (Re.chr c)) := by
        have := escape_special { st with escaped := true } c hc
        simpa [PState.step, PState.pushAtom] using this
      rw [e1]
      simp only [List.cons_append, PState.run, step_backslash st h, e2]
      exact ih _ (pushAtom_escaped _ _)
    · have hc' : regExpSpecial c = false := by simpa using hc
      have e1 : escapeRegExp (c :: cs) = c :: escapeRegExp cs := by
        simp [escapeRegExp, hc']
      rw [e1]
      simp only [List.cons_append, PState.run, step_plain st c h hc']
      exact ih _ (pushAtom_escaped _ _)

theorem pushLits_eq (k : JsString) (st : PState) (hk : k ≠ []) :
    st.pushLits k =
      { st with cur := { st.cur with terms := (k.map Re.chr).reverse ++ st.cur.terms },
                escaped := false, last := .atom } := by
  induction k generalizing st with
  | nil => exact absurd rfl hk
  | cons c cs ih =>
    by_cases hcs : cs = []
    · subst hcs; rfl
    · have := ih (st.pushAtom (Re.chr c)) hcs
      simp only [PState.pushLits, List.foldl_cons] at this ⊢
      rw [this]
      simp [PState.pushAtom]

theorem parse_literal (k : JsString) :
    parseRegExp (".*(".toList ++ escapeRegExp k ++ ")$".toList) = .ok (literalPattern k) := by
  by_cases hk : k = []
  · subst hk; rfl
  · have h0 : PState.init.run (".*(".toList ++ escapeRegExp k ++ ")$".toList)
        = (PState.pushLits ⟨[⟨0, [], [.star .any]⟩], ⟨1, [], []⟩, 2, false, .opened⟩ k).run
            ")$".toList := by
      rw [← run_escapeRegExp k _ _ rfl]
      rfl
    rw [parseRegExp, h0, pushLits_eq k _ hk]
    simp only [String.toList, PState.run, PState.step]
    simp [PState.pushAssertion, Frame.toRe, seqOf, literalPattern, lits, List.foldr_map]

/-! ## Matching a literal trigger at the end of the buffer -/

theorem resetCaps_nil (c : Caps) : resetCaps [] c = c := by
  simp [resetCaps]

theorem matchRe_lits_append (total : Nat) (k r : JsString) (c : Caps) (K : Cont) :
    matchRe total (lits k) (k ++ r) c K = K r c := by
  induction k with
  | nil => rfl
  | cons x xs ih => simpa [lits, matchRe] using ih

theorem matchRe_lits_some (total : Nat) (k s : JsString) (c : Caps) (K : Cont) (res : Caps)
    (h : matchRe total (lits k) s c K = some res) : ∃ r, s = k ++ r ∧ K r c = some res := by
  induction k generalizing s with
  | nil => exact ⟨s, rfl, h⟩
  | cons x xs ih =>
    cases s with
    | nil => simp [lits, matchRe] at h
    | cons y ys =>
      simp only [lits, List.foldr_cons, matchRe] at h
      by_cases hxy : y = x
      · rw [if_pos hxy] at h
        obtain ⟨r, hr, hK⟩ := ih ys h
        exact ⟨r, by rw [hxy, hr]; rfl, hK⟩
      · rw [if_neg hxy] at h
        exact absurd h (by simp)

theorem matchRe_any_cons (total : Nat) (x : Char) (xs : JsString) (c : Caps) (K : Cont) :
    matchRe total .any (x :: xs) c K = if isLineTerminator x then none else K xs c := rfl

theorem matchRe_any_nil (total : Nat) (c : Caps) (K : Cont) :
    matchRe total .any [] c K = none := rfl

theorem starLoop_any_some (total n : Nat) (s : JsString) (c : Caps) (K : Cont) (res : Caps)
    (h : starLoop (matchRe total .any) [] n s c K = some res) :
    ∃ t, t <:+ s ∧ K t c = some res := by
  induction n generalizing s with
  | zero => exact ⟨s, List.suffix_refl s, h⟩
  | succ n ih =>
    rw [starLoop, resetCaps_nil] at h
    split at h
    · rename_i r hr
      obtain rfl : r = res := by simpa using h
      cases s with
      | nil => rw [matchRe_any_nil] at hr; exact absurd hr (by simp)
      | cons x xs =>
        rw [matchRe_any_cons] at hr
        split at hr
        · exact absurd hr (by simp)
        · rw [if_pos (by simp)] at hr
          obtain ⟨t, ht, hK⟩ := ih xs hr
          exact ⟨t, ht.trans (List.suffix_cons x xs), hK⟩
    · exact ⟨s, List.suffix_refl s, h⟩

theorem starLoop_of_cont (body : Matcher) (inner : List Nat) (n : Nat) (s : JsString) (c : Caps)
    (K : Cont) (res : Caps) (h : K s c = some res) :
    ∃ res', starLoop body inner n s c K = some res' := by
  cases n with
  | zero => exact ⟨res, h⟩
  | succ n =>
    rw [starLoop]
    split
    · exact ⟨_, rfl⟩
    · exact ⟨res, h⟩

theorem matchRe_literalPattern (total : Nat) (k s : JsString) (c : Caps) (K : Cont) :
    matchRe total (literalPattern k) s c K =
      starLoop (matchRe total .any) [] s.length s c
        (fun s' c' => matchRe total (literalTail k) s' c' K) := rfl

theorem matchRe_literalTail (total : Nat) (k s : JsString) (c : Caps) :
    matchRe total (literalTail k) s c accept =
      matchRe total (lits k) s c (fun s' c' =>
        match s' with
        | [] => some (setCap 1 (s.take (s.length - s'.length)) c')
        | _ :: _ => none) := by
  simp only [literalTail, matchRe, accept]

theorem matchRe_literalTail_self (total : Nat) (k : JsString) (c : Caps) :
    matchRe total (literalTail k) k c accept = some (setCap 1 k c) := by
  rw [matchRe_literalTail]
  have := matchRe_lits_append total k [] c (fun s' c' =>
        match s' with
        | [] => some (setCap 1 (k.take (k.length - s'.length)) c')
        | _ :: _ => none)
  rw [List.append_nil] at this
  rw [this]
  simp

theorem matchRe_literalTail_some (total : Nat) (k s : JsString) (c res : Caps)
    (h : matchRe total (literalTail k) s c accept = some res) :
    s = k ∧ res = setCap 1 k c := by
  rw [matchRe_literalTail] at h
  obtain ⟨r, hr, hK⟩ := matchRe_lits_some total k s c _ res h
  cases r with
  | cons y ys => exact absurd hK (by simp)
  | nil =>
    rw [List.append_nil] at hr
    subst hr
    have h' : some (setCap 1 (List.take (s.length - 0) s) c) = some res := hK
    rw [Nat.sub_zero, List.take_length] at h'
    exact ⟨rfl, (Option.some.inj h').symm⟩

/-- Any successful match of the literal pattern captures exactly `k`, at the end of the
input it was started on. -/
theorem matchRe_literal_some (total : Nat) (k s : JsString) (res : Caps)
    (h : matchRe total (literalPattern k) s [] accept = some res) :
    k <:+ s ∧ res = [(1, k)] := by
  rw [matchRe_literalPattern] at h
  obtain ⟨t, ht, h⟩ := starLoop_any_some total _ s [] _ res h
  obtain ⟨rfl, hres⟩ := matchRe_literalTail_some total k t [] res h
  exact ⟨ht, by simpa [setCap] using hres⟩

/-- Started exactly where the trigger begins, the literal pattern matches. -/
theorem matchRe_literal_self (total : Nat) (k : JsString) :
    ∃ res, matchRe total (literalPattern k) k [] accept = some res := by
  rw [matchRe_literalPattern]
  exact starLoop_of_cont _ _ _ _ _ _ _ (matchRe_literalTail_self total k [])

theorem execAt_some (total : Nat) (re : Re) (s : JsString) (res : Caps)
    (h : execAt total re s = some res) :
    ∃ t, t <:+ s ∧ matchRe total re t [] accept = some res := by
  induction s with
  | nil => exact ⟨[], List.suffix_refl _, h⟩
  | cons x xs ih =>
    rw [execAt] at h
    split at h
    · rename_i r hr
      obtain rfl : r = res := by simpa using h
      exact ⟨x :: xs, List.suffix_refl _, hr⟩
    · obtain ⟨t, ht, hm⟩ := ih h
      exact ⟨t, ht.trans (List.suffix_cons x xs), hm⟩

theorem execAt_of_suffix (total : Nat) (re : Re) (s t : JsString) (res : Caps)
    (ht : t <:+ s) (hm : matchRe total re t [] accept = some res) :
    ∃ res', execAt total re s = some res' := by
  induction s with
  | nil =>
    have : t = [] := by simpa using ht
    subst this
    exact ⟨res, hm⟩
  | cons x xs ih =>
    rw [execAt]
    split
    · exact ⟨_, rfl⟩
    · rename_i hnone
      rcases List.suffix_cons_iff.mp ht with h | h
      · subst h
        rw [hm] at hnone
        exact absurd hnone (by simp)
      · exact ih h

/-- What `exec` of the literal pattern returns: group 1 holds the trigger exactly when
the input ends with the trigger, and there is no match otherwise. -/
theorem exec_literalPattern (k buf : JsString) :
    (literalPattern k).exec buf = if k <:+ buf then some [(1, k)] else none := by
  unfold Re.exec
  split
  · rename_i hs
    obtain ⟨res, hm⟩ := matchRe_literal_self buf.length k
    obtain ⟨res', he⟩ := execAt_of_suffix _ _ _ _ _ hs hm
    obtain ⟨t, _, hm'⟩ := execAt_some _ _ _ _ he
    rw [he, (matchRe_literal_some _ _ _ _ hm').2]
  · rename_i hs
    cases he : execAt buf.length (literalPattern k) buf with
    | none => rfl
    | some res =>
      obtain ⟨t, ht, hm'⟩ := execAt_some _ _ _ _ he
      exact absurd ((matchRe_literal_some _ _ _ _ hm').1.trans ht) hs

/-! ## The layout decoder -/

/-- C8: `_eventToUnicode` agrees with the specification's decoder on every key event and
every layout table (no key name or no layout entry gives no character, otherwise the
field chosen by modifier priority, an absent or empty field giving no character), and
with ctrl or meta held the result is no character. -/
theorem eventToUnicode_refines_spec (env : Env) (e : KeyEvent) :
    _eventToUnicode env e = layoutDecoderSpec env e
      ∧ _eventToUnicode env { e with ctrlKey := true } = none
      ∧ _eventToUnicode env { e with metaKey := true } = none := by
  refine ⟨?_, ?_, ?_⟩
  · unfold _eventToUnicode layoutDecoderSpec _getCharNameFromKeycode
    cases hn : env.chars e.keycode with
    | none => rfl
    | some name =>
      cases name with
      | nil => rfl
      | cons n ns =>
        simp only [truthy]
        cases hk : env.keymap (n :: ns) with
        | none => rfl
        | some entry =>
          obtain ⟨kc, sh, al, ct, me⟩ := e
          obtain ⟨v, ws, wa, wsa⟩ := entry
          cases sh <;> cases al <;> cases ct <;> cases me <;> simp <;>
            first
              | rfl
              | (cases v with
                  | none => rfl
                  | some t => cases t <;> rfl)
              | (cases ws with
                  | none => rfl
                  | some t => cases t <;> rfl)
              | (cases wa with
                  | none => rfl
                  | some t => cases t <;> rfl)
              | (cases wsa with
                  | none => rfl
                  | some t => cases t <;> rfl)
  · unfold _eventToUnicode
    cases truthy (_getCharNameFromKeycode env e.keycode) with
    | none => rfl
    | some name =>
      simp only
      cases env.keymap name with
      | none => rfl
      | some entry => simp [truthy]
  · unfold _eventToUnicode
    cases truthy (_getCharNameFromKeycode env e.keycode) with
    | none => rfl
    | some name =>
      simp only
      cases env.keymap name with
      | none => rfl
      | some entry => simp [truthy]

/-! ## The match buffer -/

theorem shouldResetBuffer_of_isResetKey (env : Env) (e : KeyEvent) (h : IsResetKey env e) :
    _shouldResetBuffer env e = true := by
  unfold _shouldResetBuffer _getCharNameFromKeycode
  rcases h with h | h | h | h | h | ⟨h, ha⟩
  all_goals rw [h]
  · rfl
  · rfl
  · rfl
  · rfl
  · rfl
  · rw [ha]; rfl

/-- C9 (as amended): while matching is enabled, a keydown whose key is Tab, an arrow key,
or Backspace with alt held leaves the buffer empty whatever it held before, and starts
no snippet matching (the world outside the manager is untouched). -/
theorem onKeyDown_reset_key (env : Env) (e : KeyEvent) (m : Manager) (sys : Sys)
    (hm : m.shouldMatch = true) (h : IsResetKey env e) :
    _onKeyDown env e m sys = ({ m with buffer := [] }, .ok sys) := by
  have hreset := shouldResetBuffer_of_isResetKey env e h
  have hguard : (!m.shouldMatch) = false := by rw [hm]; rfl
  unfold _onKeyDown
  rw [hguard, hreset]
  rfl

/-- The theorem at the Tab key and the buffer `abc`. -/
theorem onKeyDown_reset_key_witness :
    _onKeyDown (demoEnv [] 3 false luaPrintsNew) (plainKey 2)
        ⟨"abc".toList, true⟩ demoSys
      = (⟨[], true⟩, .ok demoSys) :=
  onKeyDown_reset_key (demoEnv [] 3 false luaPrintsNew) (plainKey 2)
    ⟨"abc".toList, true⟩ demoSys rfl (Or.inl rfl)

/-- C9 as stated fails: with matching disabled, Tab leaves the buffer `abc` as it is. -/
theorem reset_key_ignored_when_disabled :
    IsResetKey (demoEnv [] 3 false luaPrintsNew) (plainKey 2)
      ∧ (_onKeyDown (demoEnv [] 3 false luaPrintsNew) (plainKey 2)
          ⟨"abc".toList, false⟩ demoSys).1.buffer = "abc".toList :=
  ⟨Or.inl rfl, rfl⟩

theorem onKeyDown_plainChar (env : Env) (e : KeyEvent) (m : Manager) (sys : Sys)
    (hm : m.shouldMatch = true) (c : Char)
    (hr : _shouldResetBuffer env e = false) (hb : _isBackspace env e.keycode = false)
    (hc : _eventToUnicode env e = some [c]) :
    (_onKeyDown env e m sys).1 = _shortenBufferIfNecessary env (_addCharToBuffer [c] m) := by
  simp [_onKeyDown, hm, hr, hb, hc, _replaceSnippetIfMatchFound]

theorem lastN_append_of_le (L : Nat) (p q : JsString) (h : L ≤ q.length) :
    lastN L (p ++ q) = lastN L q := by
  unfold lastN
  rw [List.drop_append_eq_append_drop]
  have h1 : List.drop ((p ++ q).length - L) p = [] :=
    List.drop_eq_nil_of_le (by simp only [List.length_append]; omega)
  have h2 : (p ++ q).length - L - p.length = q.length - L := by
    simp only [List.length_append]; omega
  rw [h1, h2, List.nil_append]

theorem lastN_of_le (L : Nat) (b : JsString) (h : b.length ≤ L) : lastN L b = b := by
  unfold lastN
  have : b.length - L = 0 := by omega
  rw [this, List.drop_zero]

theorem length_lastN (L : Nat) (b : JsString) : (lastN L b).length = min L b.length := by
  unfold lastN
  rw [List.length_drop]
  omega

theorem lastN_lastN_append (L : Nat) (b t : JsString) :
    lastN L (lastN L b ++ t) = lastN L (b ++ t) := by
  by_cases h : b.length ≤ L
  · rw [lastN_of_le L b h]
  · have hb : b = b.take (b.length - L) ++ lastN L b := (List.take_append_drop _ _).symm
    have hl : L ≤ (lastN L b ++ t).length := by
      rw [List.length_append, length_lastN]; omega
    conv_rhs => rw [hb, List.append_assoc, lastN_append_of_le L _ _ hl]

/-- Appending one character to a buffer within the bound and trimming keeps the last
`bufferLength` characters. -/
theorem shorten_add_eq_lastN (env : Env) (m : Manager) (c : Char)
    (hlen : m.buffer.length ≤ env.bufferLength) :
    (_shortenBufferIfNecessary env (_addCharToBuffer [c] m)) =
      { m with buffer := lastN env.bufferLength (m.buffer ++ [c]) } := by
  unfold _shortenBufferIfNecessary _addCharToBuffer lastN
  simp only [List.length_append, List.length_singleton]
  split
  · rename_i h
    have : m.buffer.length + 1 - env.bufferLength = 1 := by omega
    rw [this]
  · rename_i h
    have : m.buffer.length + 1 - env.bufferLength = 0 := by omega
    rw [this]
    rfl

/-- After any sequence of plain-character keydowns, started with matching enabled from
a buffer within the bound, the buffer holds the last `bufferLength` characters of the
old buffer followed by the typed ones. -/
theorem typeKeys_plain (env : Env) (es : List KeyEvent) (m : Manager) (sys : Sys)
    (hm : m.shouldMatch = true) (hlen : m.buffer.length ≤ env.bufferLength)
    (hes : ∀ e ∈ es, PlainChar env e) :
    typeKeys env es m sys =
      { m with buffer := lastN env.bufferLength (m.buffer ++ typed env es) } := by
  induction es generalizing m sys with
  | nil => simp [typeKeys, typed, lastN_of_le _ _ hlen]
  | cons e es ih =>
    obtain ⟨hr, hb, c, hc⟩ := hes e (List.mem_cons_self _ _)
    have hstep := onKeyDown_plainChar env e m sys hm c hr hb hc
    rw [shorten_add_eq_lastN env m c hlen] at hstep
    have ht : typed env (e :: es) = [c] ++ typed env es := by
      simp [typed, hc]
    rw [typeKeys, hstep,
      ih { m with buffer := lastN env.bufferLength (m.buffer ++ [c]) } _ hm
        (by simp only [length_lastN]; omega)
        (fun e' he' => hes e' (List.mem_cons_of_mem _ he')), ht]
    simp only [lastN_lastN_append, List.append_assoc]

theorem length_typed (env : Env) (es : List KeyEvent) (hes : ∀ e ∈ es, PlainChar env e) :
    (typed env es).length = es.length := by
  induction es with
  | nil => rfl
  | cons e es ih =>
    obtain ⟨_, _, c, hc⟩ := hes e (List.mem_cons_self _ _)
    have ht : typed env (e :: es) = [c] ++ typed env es := by
      simp [typed, hc]
    rw [ht, List.length_append, ih (fun e' he' => hes e' (List.mem_cons_of_mem _ he'))]
    simp [Nat.add_comm]

/-- C5 (as amended): while matching is enabled, after `N > bufferLength` plain-character
keydowns handled by `_onKeyDown` from an empty buffer, the buffer has exactly
`bufferLength` characters and they are the most recent `bufferLength` characters typed,
in typing order. -/
theorem buffer_fifo_trim (env : Env) (es : List KeyEvent) (m : Manager) (sys : Sys)
    (hm : m.shouldMatch = true) (hb : m.buffer = [])
    (hes : ∀ e ∈ es, PlainChar env e) (hN : es.length > env.bufferLength) :
    (typeKeys env es m sys).buffer.length = env.bufferLength
      ∧ (typeKeys env es m sys).buffer = lastN env.bufferLength (typed env es) := by
  have h := typeKeys_plain env es m sys hm (by rw [hb]; exact Nat.zero_le _) hes
  rw [hb, List.nil_append] at h
  rw [h]
  refine ⟨?_, rfl⟩
  simp only [length_lastN, length_typed env es hes]
  omega

/-- The theorem at the keys `a`, `w`, `a` with `bufferLength = 2`: the buffer is `wa`. -/
theorem buffer_fifo_trim_witness :
    (typeKeys (demoEnv [] 2 false luaPrintsNew)
        [plainKey 1, plainKey 4, plainKey 1] ⟨[], true⟩ demoSys).buffer.length = 2
      ∧ (typeKeys (demoEnv [] 2 false luaPrintsNew)
        [plainKey 1, plainKey 4, plainKey 1] ⟨[], true⟩ demoSys).buffer = "wa".toList :=
  buffer_fifo_trim (demoEnv [] 2 false luaPrintsNew)
    [plainKey 1, plainKey 4, plainKey 1] ⟨[], true⟩ demoSys rfl rfl
    (by
      intro e he
      simp only [List.mem_cons, List.mem_singleton, List.not_mem_nil, or_false] at he
      rcases he with h | h | h <;> subst h
      · exact ⟨rfl, rfl, 'a', rfl⟩
      · exact ⟨rfl, rfl, 'w', rfl⟩
      · exact ⟨rfl, rfl, 'a', rfl⟩)
    (by decide)

/-- C5 as stated fails: with matching disabled, three plain-character keydowns with
`bufferLength = 2` leave the buffer empty. -/
theorem fifo_trim_ignored_when_disabled :
    (∀ e ∈ [plainKey 1, plainKey 4, plainKey 1],
        PlainChar (demoEnv [] 2 false luaPrintsNew) e)
      ∧ [plainKey 1, plainKey 4, plainKey 1].length
          > (demoEnv [] 2 false luaPrintsNew).bufferLength
      ∧ (typeKeys (demoEnv [] 2 false luaPrintsNew)
          [plainKey 1, plainKey 4, plainKey 1] ⟨[], false⟩ demoSys).buffer.length
          ≠ (demoEnv [] 2 false luaPrintsNew).bufferLength := by
  refine ⟨?_, by decide, by decide⟩
  intro e he
  simp only [List.mem_cons, List.mem_singleton, List.not_mem_nil, or_false] at he
  rcases he with h | h | h <;> subst h
  · exact ⟨rfl, rfl, 'a', rfl⟩
  · exact ⟨rfl, rfl, 'w', rfl⟩
  · exact ⟨rfl, rfl, 'a', rfl⟩

/-! ## The snippet matcher -/

theorem tapBackspaces_eq (n : Nat) (sys : Sys) :
    tapBackspaces n sys =
      { sys with taps := sys.taps ++ List.replicate n ("backspace".toList, none) } := by
  induction n generalizing sys with
  | zero => simp [tapBackspaces]
  | succ n ih =>
    rw [tapBackspaces, ih]
    simp [keyTap, List.replicate_succ]

/-- The pattern of a literal key lies in the modelled fragment, whatever the key. -/
theorem newRegExp_literal (env : Env) (k : JsString) :
    newRegExp env (".*(".toList ++ escapeRegExp k ++ ")$".toList)
      = .ok (literalPattern k).exec := by
  unfold newRegExp
  rw [parse_literal]

/-- For a literal snippet, group 1 holds the key exactly when the buffer ends with it. -/
theorem matchedString_literal (env : Env) (snippet : Snippet) (buffer : JsString)
    (hr : snippet.regex = false) :
    matchedString env snippet buffer =
      .ok (if snippet.key <:+ buffer then some snippet.key else none) := by
  unfold matchedString
  simp only [hr, Bool.not_false, if_true]
  rw [newRegExp_literal]
  simp only
  rw [exec_literalPattern]
  split <;> simp [getCap]

theorem scanSnippets_skip (env : Env) (buffer : JsString) (snippet : Snippet)
    (rest : List Snippet) (sys : Sys) (h : NoMatch env snippet buffer) :
    scanSnippets env buffer (snippet :: rest) sys = scanSnippets env buffer rest sys := by
  rcases h with h | h <;> simp [scanSnippets, h, truthy]

theorem scanSnippets_fire (env : Env) (buffer : JsString) (snippet : Snippet)
    (rest : List Snippet) (sys : Sys) (matched : JsString)
    (h : Matches env snippet buffer matched) :
    scanSnippets env buffer (snippet :: rest) sys = expand env snippet matched sys := by
  obtain ⟨h, hne⟩ := h
  cases matched with
  | nil => exact absurd rfl hne
  | cons c cs => simp [scanSnippets, h, truthy]

theorem scanSnippets_append (env : Env) (buffer : JsString) (pre rest : List Snippet)
    (sys : Sys) (h : ∀ s ∈ pre, NoMatch env s buffer) :
    scanSnippets env buffer (pre ++ rest) sys = scanSnippets env buffer rest sys := by
  induction pre with
  | nil => rfl
  | cons s pre ih =>
    rw [List.cons_append, scanSnippets_skip env buffer s _ sys (h s (List.mem_cons_self _ _))]
    exact ih (fun s' hs' => h s' (List.mem_cons_of_mem _ hs'))

theorem expand_plain (env : Env) (snippet : Snippet) (matched : JsString) (sys : Sys)
    (hjs : snippet.type ≠ "js".toList) (hlua : snippet.type ≠ "lua".toList) :
    expand env snippet matched sys =
      .ok { sys with
              clipboard := snippet.value,
              taps := sys.taps ++ List.replicate matched.length ("backspace".toList, none),
              timers := sys.timers ++ [(50, .paste), (500, .restore sys.clipboard)] } := by
  simp only [expand, if_neg hjs, if_neg hlua]
  simp [tapBackspaces_eq, replace, writeText, setTimeout, _handlePlainTextSnippet]

/-- C6 (as amended): a literal plain-text snippet with non-empty key `k`, reached when the
match test of every earlier registry entry runs without throwing and yields no non-empty
capture: if the buffer ends with `k`, group 1 captures exactly `k`, exactly `length k`
backspace taps are emitted and one `replace` call is made with the snippet's value
(clipboard set to the value, paste after 50 ms, restore after 500 ms); if the buffer does
not end with `k`, the snippet does not fire and the scan goes on. -/
theorem literal_snippet_fires (env : Env) (m : Manager) (sys : Sys)
    (pre rest : List Snippet) (snippet : Snippet)
    (hreg : env.snippets = pre ++ snippet :: rest)
    (hr : snippet.regex = false) (hk : snippet.key ≠ [])
    (hjs : snippet.type ≠ "js".toList) (hlua : snippet.type ≠ "lua".toList)
    (hpre : ∀ s ∈ pre, NoMatch env s m.buffer) :
    (snippet.key <:+ m.buffer →
        matchedString env snippet m.buffer = .ok (some snippet.key)
          ∧ _replaceSnippetIfMatchFound env m sys =
              (m, .ok { sys with
                      clipboard := snippet.value,
                      taps := sys.taps
                        ++ List.replicate snippet.key.length ("backspace".toList, none),
                      timers := sys.timers ++ [(50, .paste), (500, .restore sys.clipboard)] }))
      ∧ (¬ snippet.key <:+ m.buffer →
          matchedString env snippet m.buffer = .ok none
            ∧ _replaceSnippetIfMatchFound env m sys
                = (m, scanSnippets env m.buffer rest sys)) := by
  have hms := matchedString_literal env snippet m.buffer hr
  unfold _replaceSnippetIfMatchFound
  rw [hreg, scanSnippets_append env m.buffer pre _ sys hpre]
  constructor
  · intro hs
    rw [if_pos hs] at hms
    refine ⟨hms, ?_⟩
    rw [scanSnippets_fire env m.buffer snippet rest sys snippet.key ⟨hms, hk⟩,
      expand_plain env snippet snippet.key sys hjs hlua]
  · intro hs
    rw [if_neg hs] at hms
    exact ⟨hms, by rw [scanSnippets_skip env m.buffer snippet rest sys (Or.inl hms)]⟩

/-- The theorem at the key `btw` and the buffer `by the way btw`, behind an earlier regex
entry `[0-9]+x` that does not match: three backspaces and one plain-text `replace`. -/
theorem literal_snippet_fires_witness :
    _replaceSnippetIfMatchFound
        (demoEnv [⟨"[0-9]+x".toList, true, "plain".toList, "N".toList⟩,
                  ⟨"btw".toList, false, "plain".toList, "by the way".toList⟩] 20 false
          luaPrintsNew)
        ⟨"by the way btw".toList, true⟩ demoSys
      = (⟨"by the way btw".toList, true⟩, .ok ⟨"by the way".toList,
          [("backspace".toList, none), ("backspace".toList, none), ("backspace".toList, none)],
          [], [(50, .paste), (500, .restore "old".toList)], []⟩) :=
  ((literal_snippet_fires
      (demoEnv [⟨"[0-9]+x".toList, true, "plain".toList, "N".toList⟩,
                ⟨"btw".toList, false, "plain".toList, "by the way".toList⟩] 20 false
        luaPrintsNew)
      ⟨"by the way btw".toList, true⟩ demoSys
      [⟨"[0-9]+x".toList, true, "plain".toList, "N".toList⟩] []
      ⟨"btw".toList, false, "plain".toList, "by the way".toList⟩ rfl rfl (by decide)
      (by decide) (by decide)
      (by
        intro s hs
        rw [List.mem_singleton] at hs
        subst hs
        exact Or.inl rfl)).1
    ⟨"by the way ".toList, rfl⟩).2

/-- C6 as stated fails: the earlier regex entry `*` does not match the buffer (its pattern
`.*(*)$` does not compile) and the buffer `by the way btw` ends with the literal key
`btw`, yet `new RegExp` throws at the earlier entry and the literal snippet does not
fire: no backspace is emitted and `replace` is not called. -/
theorem literal_snippet_blocked_by_invalid_entry :
    (∀ matched, ¬ Matches
        (demoEnv [⟨"*".toList, true, "plain".toList, "X".toList⟩,
                  ⟨"btw".toList, false, "plain".toList, "by the way".toList⟩] 20 false
          luaPrintsNew)
        ⟨"*".toList, true, "plain".toList, "X".toList⟩ "by the way btw".toList matched)
      ∧ "btw".toList <:+ "by the way btw".toList
      ∧ _replaceSnippetIfMatchFound
          (demoEnv [⟨"*".toList, true, "plain".toList, "X".toList⟩,
                    ⟨"btw".toList, false, "plain".toList, "by the way".toList⟩] 20 false
            luaPrintsNew)
          ⟨"by the way btw".toList, true⟩ demoSys
        = (⟨"by the way btw".toList, true⟩,
            .error (.threw (regExpSyntaxError ".*(*)$".toList nothingToRepeat) demoSys)) := by
  refine ⟨?_, ⟨"by the way ".toList, rfl⟩, rfl⟩
  intro matched h
  have h1 : (Except.error (regExpSyntaxError ".*(*)$".toList nothingToRepeat) :
      Except Thrown (Option JsString)) = .ok (some matched) := h.1
  cases h1

/-- C7 (as amended): when the match test of every snippet tried runs without throwing
(its pattern compiles), `_replaceSnippetIfMatchFound` expands the first snippet in
registry order whose pattern captures a non-empty group 1, and only that one, whatever
follows it in the registry; when no snippet matches, nothing is done to the world. -/
theorem first_match_wins (env : Env) (m : Manager) (sys : Sys) :
    (∀ (pre rest : List Snippet) (snippet : Snippet) (matched : JsString),
        env.snippets = pre ++ snippet :: rest →
        (∀ s ∈ pre, NoMatch env s m.buffer) →
        Matches env snippet m.buffer matched →
        _replaceSnippetIfMatchFound env m sys = (m, expand env snippet matched sys))
      ∧ ((∀ s ∈ env.snippets, NoMatch env s m.buffer) →
          _replaceSnippetIfMatchFound env m sys = (m, .ok sys)) := by
  constructor
  · intro pre rest snippet matched hreg hpre hm
    unfold _replaceSnippetIfMatchFound
    rw [hreg, scanSnippets_append env m.buffer pre _ sys hpre,
      scanSnippets_fire env m.buffer snippet rest sys matched hm]
  · intro hall
    unfold _replaceSnippetIfMatchFound
    have := scanSnippets_append env m.buffer env.snippets [] sys hall
    rw [List.append_nil] at this
    rw [this]
    rfl

/-- The theorem at the registry `[0-9]+x` (regex, compiled by the host engine), `x*`
(regex), `btw`, `tw` and the buffer `btw`: the first pattern does not match, the second
captures the empty string, `btw` is expanded and `tw` is not tried. -/
theorem first_match_wins_witness :
    _replaceSnippetIfMatchFound
        (demoEnv [⟨"[0-9]+x".toList, true, "plain".toList, "N".toList⟩,
                  ⟨"x*".toList, true, "plain".toList, "X".toList⟩,
                  ⟨"btw".toList, false, "plain".toList, "B".toList⟩,
                  ⟨"tw".toList, false, "plain".toList, "T".toList⟩] 20 false luaPrintsNew)
        ⟨"btw".toList, true⟩ demoSys
      = (⟨"btw".toList, true⟩, .ok ⟨"B".toList,
          [("backspace".toList, none), ("backspace".toList, none), ("backspace".toList, none)],
          [], [(50, .paste), (500, .restore "old".toList)], []⟩) :=
  (first_match_wins
      (demoEnv [⟨"[0-9]+x".toList, true, "plain".toList, "N".toList⟩,
                ⟨"x*".toList, true, "plain".toList, "X".toList⟩,
                ⟨"btw".toList, false, "plain".toList, "B".toList⟩,
                ⟨"tw".toList, false, "plain".toList, "T".toList⟩] 20 false luaPrintsNew)
      ⟨"btw".toList, true⟩ demoSys).1
    [⟨"[0-9]+x".toList, true, "plain".toList, "N".toList⟩,
     ⟨"x*".toList, true, "plain".toList, "X".toList⟩]
    [⟨"tw".toList, false, "plain".toList, "T".toList⟩]
    ⟨"btw".toList, false, "plain".toList, "B".toList⟩ "btw".toList rfl
    (by
      intro s hs
      simp only [List.mem_cons, List.mem_singleton, List.not_mem_nil, or_false] at hs
      rcases hs with hs | hs <;> subst hs
      · exact Or.inl rfl
      · exact Or.inr rfl)
    ⟨rfl, by decide⟩

/-- C7 as stated fails: the buffer `btw` ends with the trigger of the second snippet and
with no trigger of the first, whose pattern `.*(()$` does not compile; the scan stops at
the first snippet with the `SyntaxError` and expands nothing. -/
theorem invalid_trigger_stops_scan :
    matchedString
        (demoEnv [⟨"(".toList, true, "plain".toList, "X".toList⟩,
                  ⟨"btw".toList, false, "plain".toList, "B".toList⟩] 20 false luaPrintsNew)
        ⟨"(".toList, true, "plain".toList, "X".toList⟩ "btw".toList
        = .error (regExpSyntaxError ".*(()$".toList unterminatedGroup)
      ∧ Matches
          (demoEnv [⟨"(".toList, true, "plain".toList, "X".toList⟩,
                    ⟨"btw".toList, false, "plain".toList, "B".toList⟩] 20 false luaPrintsNew)
          ⟨"btw".toList, false, "plain".toList, "B".toList⟩ "btw".toList "btw".toList
      ∧ _replaceSnippetIfMatchFound
          (demoEnv [⟨"(".toList, true, "plain".toList, "X".toList⟩,
                    ⟨"btw".toList, false, "plain".toList, "B".toList⟩] 20 false luaPrintsNew)
          ⟨"btw".toList, true⟩ demoSys
        = (⟨"btw".toList, true⟩,
            .error (.threw (regExpSyntaxError ".*(()$".toList unterminatedGroup) demoSys)) :=
  ⟨rfl, ⟨rfl, by decide⟩, rfl⟩

/-! ## The buffer after a match -/

theorem allEmpty_setCap (n : Nat) (c : Caps) (h : AllEmpty c) : AllEmpty (setCap n [] c) := by
  intro p hp
  simp only [setCap, List.mem_cons, List.mem_filter] at hp
  rcases hp with hp | ⟨hp, _⟩
  · rw [hp]
  · exact h p hp

theorem allEmpty_resetCaps (gs : List Nat) (c : Caps) (h : AllEmpty c) :
    AllEmpty (resetCaps gs c) := by
  intro p hp
  simp only [resetCaps, List.mem_filter] at hp
  exact h p hp.1

/-- On the empty input a pattern can only record empty captures. -/
theorem matchRe_nil_allEmpty (total : Nat) (re : Re) :
    ∀ (c : Caps) (K : Cont) (r : Caps), AllEmpty c →
      (∀ c' r', AllEmpty c' → K [] c' = some r' → AllEmpty r') →
      matchRe total re [] c K = some r → AllEmpty r := by
  induction re with
  | eps => intro c K r hc hK h; exact hK c r hc h
  | chr a => intro c K r hc hK h; simp [matchRe] at h
  | any => intro c K r hc hK h; simp [matchRe] at h
  | cls k neg => intro c K r hc hK h; simp [matchRe] at h
  | bol =>
    intro c K r hc hK h
    simp only [matchRe] at h
    split at h
    · exact hK c r hc h
    · exact absurd h (by simp)
  | eol => intro c K r hc hK h; exact hK c r hc h
  | seq a b iha ihb =>
    intro c K r hc hK h
    simp only [matchRe] at h
    exact iha c _ r hc (fun c' r' hc' h' => ihb c' K r' hc' hK h') h
  | alt a b iha ihb =>
    intro c K r hc hK h
    simp only [matchRe] at h
    split at h
    · rename_i r0 h0
      obtain rfl : r0 = r := by simpa using h
      exact iha c K r0 hc hK h0
    · exact ihb c K r hc hK h
  | star a _ =>
    intro c K r hc hK h
    exact hK c r hc h
  | plus a iha =>
    intro c K r hc hK h
    simp only [matchRe] at h
    exact iha (resetCaps (groupsOf a) c)
      (fun s' c' => starLoop (matchRe total a) (groupsOf a) s'.length s' c' K) r
      (allEmpty_resetCaps _ c hc) (fun c' r' hc' h' => hK c' r' hc' h') h
  | opt a iha =>
    intro c K r hc hK h
    simp only [matchRe] at h
    split at h
    · rename_i r0 h0
      obtain rfl : r0 = r := by simpa using h
      exact iha _ _ r0 (allEmpty_resetCaps _ c hc)
        (fun c' r' _ h' => absurd h' (by simp)) h0
    · exact hK c r hc h
  | group n a iha =>
    intro c K r hc hK h
    simp only [matchRe] at h
    exact iha c _ r hc
      (fun c' r' hc' h' => hK _ r' (allEmpty_setCap n c' hc') (by simpa using h')) h

theorem getCap_allEmpty (n : Nat) (c : Caps) (s : JsString) (h : AllEmpty c)
    (hs : getCap n c = some s) : s = [] := by
  induction c with
  | nil => simp [getCap] at hs
  | cons p c ih =>
    obtain ⟨i, t⟩ := p
    simp only [getCap] at hs
    split at hs
    · have := h (i, t) (List.mem_cons_self _ _)
      simp only at this
      rw [← Option.some.inj hs, this]
    · exact ih (fun q hq => h q (List.mem_cons_of_mem _ hq)) hs

theorem exec_nil_allEmpty (re : Re) (caps : Caps) (h : re.exec [] = some caps) :
    AllEmpty caps :=
  matchRe_nil_allEmpty 0 re [] accept caps (fun _ hp => absurd hp (List.not_mem_nil _))
    (fun c' r' hc' h' => by
      have : c' = r' := by simpa [accept] using h'
      exact this ▸ hc') h

theorem sliceCaps_nil_allEmpty (spans : List (Nat × Nat × Nat)) :
    AllEmpty (sliceCaps [] spans) := by
  intro p hp
  simp only [sliceCaps, List.mem_map] at hp
  obtain ⟨sp, _, rfl⟩ := hp
  simp

/-- Whatever the pattern, a compiled `exec` records only empty captures on the empty
input. -/
theorem newRegExp_nil_allEmpty (env : Env) (source : JsString)
    (exec : JsString → Option Caps) (caps : Caps)
    (hc : newRegExp env source = .ok exec) (hx : exec [] = some caps) : AllEmpty caps := by
  unfold newRegExp at hc
  split at hc
  · rename_i re _
    obtain rfl : re.exec = exec := by simpa using hc
    exact exec_nil_allEmpty re caps hx
  · exact absurd hc (by simp)
  · split at hc
    · rename_i f _
      have hf : (fun input => (f input).map (sliceCaps input)) = exec := by simpa using hc
      rw [← hf] at hx
      have hx' : (f []).map (sliceCaps []) = some caps := hx
      cases hfi : f [] with
      | none => rw [hfi] at hx'; exact absurd hx' (by simp)
      | some spans =>
        rw [hfi] at hx'
        have : sliceCaps [] spans = caps := by simpa using hx'
        rw [← this]
        exact sliceCaps_nil_allEmpty spans
    · exact absurd hc (by simp)

/-- No snippet matches on the empty buffer. -/
theorem not_matches_nil (env : Env) (snippet : Snippet) (matched : JsString) :
    ¬ Matches env snippet [] matched := by
  rintro ⟨h, hne⟩
  cases hp : newRegExp env (".*(".toList
      ++ (if !snippet.regex then escapeRegExp snippet.key else snippet.key) ++ ")$".toList) with
  | error e =>
    simp only [matchedString, hp] at h
    exact absurd h (by simp)
  | ok exec =>
    simp only [matchedString, hp] at h
    have h1 : (exec []).bind (getCap 1) = some matched := by simpa using h
    cases hx : exec [] with
    | none => rw [hx] at h1; exact absurd h1 (by simp)
    | some caps =>
      rw [hx] at h1
      exact hne (getCap_allEmpty 1 caps matched (newRegExp_nil_allEmpty env _ exec caps hp hx)
        (by simpa using h1))

theorem shorten_add_eq_appendTrim (env : Env) (m : Manager) (character : JsString) :
    _shortenBufferIfNecessary env (_addCharToBuffer character m)
      = { m with buffer := appendTrim env.bufferLength m.buffer character } := by
  unfold _shortenBufferIfNecessary _addCharToBuffer appendTrim
  simp only
  split <;> rfl

/-- Whatever the snippet type and however the expansion ends, the taps sent during it are
exactly one backspace per character of the capture. -/
theorem expand_taps (env : Env) (snippet : Snippet) (matched : JsString) (sys : Sys) :
    (worldOf (expand env snippet matched sys)).taps
      = sys.taps ++ List.replicate matched.length ("backspace".toList, none) := by
  by_cases hjs : snippet.type = "js".toList
  · simp only [expand, if_pos hjs, _handleJavascriptSnippet, _evaluate]
    cases env.notificationSupported <;>
      simp [replace, writeText, setTimeout, notificationShow, tapBackspaces_eq, worldOf]
  · by_cases hlua : snippet.type = "lua".toList
    · simp only [expand, if_neg hjs, if_pos hlua, _handleLuaSnippet]
      cases _evaluateLua env matched snippet.value <;>
        simp [replace, writeText, setTimeout, tapBackspaces_eq, worldOf]
    · rw [expand_plain env snippet matched sys hjs hlua]
      rfl

/-- C4 (as amended): with matching enabled, let a keydown that is neither a reset key nor
Backspace decode to a character, and let the buffer with the character appended (less
its first character when longer than `bufferLength`) be matched by a registered snippet,
the match tests of the earlier entries running and failing. Then the match is processed
(the snippet is expanded, with exactly one backspace per captured character) and the
buffer after `_onKeyDown` is still that buffer, not empty: a trigger match does not clear
the buffer. -/
theorem match_keeps_buffer (env : Env) (e : KeyEvent) (m : Manager) (sys : Sys)
    (character matched : JsString) (pre rest : List Snippet) (snippet : Snippet)
    (hm : m.shouldMatch = true)
    (hr : _shouldResetBuffer env e = false) (hb : _isBackspace env e.keycode = false)
    (hc : _eventToUnicode env e = some character)
    (hreg : env.snippets = pre ++ snippet :: rest)
    (hpre : ∀ s ∈ pre, NoMatch env s (appendTrim env.bufferLength m.buffer character))
    (hmatch : Matches env snippet (appendTrim env.bufferLength m.buffer character) matched) :
    (_onKeyDown env e m sys).1 = ⟨appendTrim env.bufferLength m.buffer character, true⟩
      ∧ (_onKeyDown env e m sys).1.buffer ≠ []
      ∧ (_onKeyDown env e m sys).2 = expand env snippet matched sys
      ∧ (worldOf (_onKeyDown env e m sys).2).taps
          = sys.taps ++ List.replicate matched.length ("backspace".toList, none) := by
  have hscan : _replaceSnippetIfMatchFound env
      { m with buffer := appendTrim env.bufferLength m.buffer character } sys
        = ({ m with buffer := appendTrim env.bufferLength m.buffer character },
            expand env snippet matched sys) := by
    unfold _replaceSnippetIfMatchFound
    rw [hreg, scanSnippets_append env _ pre _ sys hpre,
      scanSnippets_fire env _ snippet rest sys matched hmatch]
  have h1 : _onKeyDown env e m sys =
      (⟨appendTrim env.bufferLength m.buffer character, true⟩,
        expand env snippet matched sys) := by
    have hstep : _onKeyDown env e m sys = _replaceSnippetIfMatchFound env
        (_shortenBufferIfNecessary env (_addCharToBuffer character m)) sys := by
      simp [_onKeyDown, hm, hr, hb, hc]
    rw [hstep, shorten_add_eq_appendTrim, hscan, hm]
  rw [h1]
  refine ⟨rfl, ?_, rfl, expand_taps env snippet matched sys⟩
  intro hnil
  simp only at hnil
  rw [hnil] at hmatch
  exact not_matches_nil env snippet matched hmatch

/-- The theorem at the trigger `aw`, completed by typing `w` after `a`. -/
theorem match_keeps_buffer_witness :
    (_onKeyDown
        (demoEnv [⟨"aw".toList, false, "plain".toList, "X".toList⟩] 20 false luaPrintsNew)
        (plainKey 4) ⟨"a".toList, true⟩ demoSys).1 = ⟨"aw".toList, true⟩
      ∧ (_onKeyDown
        (demoEnv [⟨"aw".toList, false, "plain".toList, "X".toList⟩] 20 false luaPrintsNew)
        (plainKey 4) ⟨"a".toList, true⟩ demoSys).1.buffer ≠ [] :=
  ⟨(match_keeps_buffer
      (demoEnv [⟨"aw".toList, false, "plain".toList, "X".toList⟩] 20 false luaPrintsNew)
      (plainKey 4) ⟨"a".toList, true⟩ demoSys "w".toList "aw".toList [] []
      ⟨"aw".toList, false, "plain".toList, "X".toList⟩ rfl rfl rfl rfl rfl
      (fun _ h => absurd h (List.not_mem_nil _)) ⟨rfl, by decide⟩).1,
   (match_keeps_buffer
      (demoEnv [⟨"aw".toList, false, "plain".toList, "X".toList⟩] 20 false luaPrintsNew)
      (plainKey 4) ⟨"a".toList, true⟩ demoSys "w".toList "aw".toList [] []
      ⟨"aw".toList, false, "plain".toList, "X".toList⟩ rfl rfl rfl rfl rfl
      (fun _ h => absurd h (List.not_mem_nil _)) ⟨rfl, by decide⟩).2.1⟩

/-- C4 as stated fails: typing `w` after `a` completes the trigger `aw`; the match is
processed (two backspaces, one `replace`) and the buffer is still `aw`. -/
theorem match_does_not_clear_buffer :
    _eventToUnicode
        (demoEnv [⟨"aw".toList, false, "plain".toList, "X".toList⟩] 20 false luaPrintsNew)
        (plainKey 4) = some "w".toList
      ∧ _onKeyDown
          (demoEnv [⟨"aw".toList, false, "plain".toList, "X".toList⟩] 20 false luaPrintsNew)
          (plainKey 4) ⟨"a".toList, true⟩ demoSys
        = (⟨"aw".toList, true⟩,
            .ok ⟨"X".toList, [("backspace".toList, none), ("backspace".toList, none)], [],
              [(50, .paste), (500, .restore "old".toList)], []⟩) :=
  ⟨rfl, rfl⟩

/-! ## Regex triggers -/

/-- C1 fails on the code: for the regex snippet `\d+x` and the buffer `a42x`, the greedy
`.*` in front of the group takes `a4`, so group 1 captures `2x` and two backspaces are
emitted, not `42x` and three. -/
theorem regex_trigger_captures_shortest_suffix :
    matchedString
        (demoEnv [⟨"\\d+x".toList, true, "plain".toList, "N".toList⟩] 20 false luaPrintsNew)
        ⟨"\\d+x".toList, true, "plain".toList, "N".toList⟩ "a42x".toList
        = .ok (some "2x".toList)
      ∧ _replaceSnippetIfMatchFound
          (demoEnv [⟨"\\d+x".toList, true, "plain".toList, "N".toList⟩] 20 false luaPrintsNew)
          ⟨"a42x".toList, true⟩ demoSys
        = (⟨"a42x".toList, true⟩,
            .ok ⟨"N".toList, [("backspace".toList, none), ("backspace".toList, none)], [],
              [(50, .paste), (500, .restore "old".toList)], []⟩) :=
  ⟨rfl, rfl⟩

/-! ## Scripted snippets -/

/-- C3 fails on the code: `_handleJavascriptSnippet` calls the undefined `this._evaluate`,
so for every script source, also one whose function returns 7 (which `_evaluateJavascript`
would accept), the value handed to `replace` is the error text, or the empty string when
notifications are supported, and never `7`. -/
theorem javascript_snippet_never_evaluated (env : Env) (matched code : JsString) (sys : Sys) :
    (_handleJavascriptSnippet env matched code sys).1 =
        (if env.notificationSupported then .str []
         else .str "QWError TypeError: this._evaluate is not a function".toList)
      ∧ (_handleJavascriptSnippet env matched code sys).1 ≠ .str "7".toList
      ∧ (_handleJavascriptSnippet env matched code sys).1 ≠ .num 7
      ∧ _evaluateJavascript (demoEnv [] 20 false luaPrintsNew) matched code
          = .ok (.num 7) := by
  have h : (_handleJavascriptSnippet env matched code sys).1 =
      (if env.notificationSupported then .str []
       else .str "QWError TypeError: this._evaluate is not a function".toList) := by
    unfold _handleJavascriptSnippet _evaluate
    cases env.notificationSupported <;> rfl
  refine ⟨h, ?_, ?_, rfl⟩
  · rw [h]; cases env.notificationSupported <;> decide
  · rw [h]; cases env.notificationSupported <;> decide

/-- C10 fails on the code: a Lua snippet whose script fails with `boom`, with notifications
supported: `_handleLuaSnippet` shows nothing through the sink and puts `QWError: boom` on the
clipboard, which the paste chord then injects, where the claim has an empty injected string
(and, without a sink, the text `QWError boom`). -/
theorem lua_failure_ignores_notification_sink :
    _handleLuaSnippet (demoEnv [] 20 true luaFails) "x".toList "code".toList demoSys
      = (.undefined, ⟨"QWError: boom".toList, [], [],
          [(50, .paste), (500, .restore "old".toList)], []⟩)
      ∧ settle (expand (demoEnv [] 20 true luaFails)
          ⟨"x".toList, false, "lua".toList, "code".toList⟩ "x".toList demoSys)
        = ⟨"old".toList, [("backspace".toList, none), ("v".toList, some "command".toList)],
            [], [], ["QWError: boom".toList]⟩ :=
  ⟨rfl, rfl⟩

/-! ## The clipboard after an expansion cycle -/

/-- C2: for every snippet type (plain, lua, js), every clipboard text and every script
outcome, once one expansion cycle (the dispatch of `_replaceSnippetIfMatchFound`, with
`replace` and `_handleLuaSnippet`) is over and the timers it scheduled have fired in
order, no other timer pending, the clipboard text is the text it held before the cycle. -/
theorem expansion_cycle_restores_clipboard (env : Env) (snippet : Snippet)
    (matched : JsString) (sys : Sys) (ht : sys.timers = []) :
    (settle (expand env snippet matched sys)).clipboard = sys.clipboard := by
  by_cases hjs : snippet.type = "js".toList
  · simp only [expand, if_pos hjs, _handleJavascriptSnippet, _evaluate]
    cases env.notificationSupported <;>
      simp [replace, writeText, setTimeout, notificationShow, tapBackspaces_eq, settle,
        runTimers, ht, firingOrder, insertTimer, fire]
  · by_cases hlua : snippet.type = "lua".toList
    · simp only [expand, if_neg hjs, if_pos hlua, _handleLuaSnippet]
      cases _evaluateLua env matched snippet.value <;>
        simp [replace, writeText, setTimeout, tapBackspaces_eq, settle,
          runTimers, ht, firingOrder, insertTimer, fire]
    · rw [expand_plain env snippet matched sys hjs hlua]
      simp [settle, runTimers, ht, firingOrder, insertTimer, fire]

/-- The theorem at a Lua snippet whose script prints `new`, with the clipboard `old`. -/
theorem expansion_cycle_restores_clipboard_witness :
    (settle (expand (demoEnv [] 20 false luaPrintsNew)
        ⟨"x".toList, false, "lua".toList, "code".toList⟩ "x".toList demoSys)).clipboard
      = "old".toList :=
  expansion_cycle_restores_clipboard (demoEnv [] 20 false luaPrintsNew)
    ⟨"x".toList, false, "lua".toList, "code".toList⟩ "x".toList demoSys rfl

end Quickwords
